/-
Verification of the Quant_Backtest_Harness run.py harness.

Shallow embedding of src/run.py: machine floats are modelled as real
numbers, Python lists as Lean lists, the seeded `random.Random` streams
as abstract draw functions `Nat → ℝ` (one stream per constructor seed),
and the effectful parts of `run_once` as an explicit event trace in
program order.  SHA-256 and the canonical JSON serialization used by
`prereg` are embedded bit-faithfully over `Nat` so that the AEQ/CID
identifiers can be evaluated in the kernel.
-/
import Mathlib

namespace Harness

/-! ### SHA-256 over byte lists (embedding of hashlib.sha256) -/

/-- Addition modulo 2^32, the word arithmetic of SHA-256. -/
def add32 (a b : Nat) : Nat := (a + b) % 4294967296

/-- Right rotation of a 32-bit word by `n` places (0 < n < 32). -/
def rotr (n x : Nat) : Nat := x / 2 ^ n + x % 2 ^ n * 2 ^ (32 - n)

/-- The 64 SHA-256 round constants. -/
def k256 : List Nat :=
  [1116352408, 1899447441, 3049323471, 3921009573, 961987163,
   1508970993, 2453635748, 2870763221, 3624381080, 310598401,
   607225278, 1426881987, 1925078388, 2162078206, 2614888103,
   3248222580, 3835390401, 4022224774, 264347078, 604807628,
   770255983, 1249150122, 1555081692, 1996064986, 2554220882,
   2821834349, 2952996808, 3210313671, 3336571891, 3584528711,
   113926993, 338241895, 666307205, 773529912, 1294757372,
   1396182291, 1695183700, 1986661051, 2177026350, 2456956037,
   2730485921, 2820302411, 3259730800, 3345764771, 3516065817,
   3600352804, 4094571909, 275423344, 430227734, 506948616,
   659060556, 883997877, 958139571, 1322822218, 1537002063,
   1747873779, 1955562222, 2024104815, 2227730452, 2361852424,
   2428436474, 2756734187, 3204031479, 3329325298]

/-- The SHA-256 initial hash value. -/
def h256 : List Nat :=
  [1779033703, 3144134277, 1013904242, 2773480762, 1359893119,
   2600822924, 528734635, 1541459225]

/-- Group a byte list into big-endian 32-bit words. -/
def toWords : List Nat → List Nat
  | a :: b :: c :: d :: rest => (((a * 256 + b) * 256 + c) * 256 + d) :: toWords rest
  | _ => []

/-- The sigma0 message-schedule function. -/
def ssig0 (x : Nat) : Nat := rotr 7 x ^^^ rotr 18 x ^^^ x / 2 ^ 3

/-- The sigma1 message-schedule function. -/
def ssig1 (x : Nat) : Nat := rotr 17 x ^^^ rotr 19 x ^^^ x / 2 ^ 10

/-- Extend the 16 block words to 64; the accumulator is kept newest-first. -/
def extendW : Nat → List Nat → List Nat
  | 0, acc => acc.reverse
  | m + 1, acc =>
    let t2 := acc.getD 1 0
    let t7 := acc.getD 6 0
    let t15 := acc.getD 14 0
    let t16 := acc.getD 15 0
    extendW m (add32 (add32 (ssig1 t2) t7) (add32 (ssig0 t15) t16) :: acc)

/-- One SHA-256 round on the state `[a,b,c,d,e,f,g,h]`. -/
def round256 (wi ki : Nat) (st : List Nat) : List Nat :=
  let a := st.getD 0 0
  let b := st.getD 1 0
  let c := st.getD 2 0
  let d := st.getD 3 0
  let e := st.getD 4 0
  let f := st.getD 5 0
  let g := st.getD 6 0
  let h := st.getD 7 0
  let s1 := rotr 6 e ^^^ rotr 11 e ^^^ rotr 25 e
  let ch := (e &&& f) ^^^ ((e ^^^ 0xffffffff) &&& g)
  let t1 := add32 h (add32 s1 (add32 ch (add32 ki wi)))
  let s0 := rotr 2 a ^^^ rotr 13 a ^^^ rotr 22 a
  let maj := (a &&& b) ^^^ (a &&& c) ^^^ (b &&& c)
  let t2 := add32 s0 maj
  [add32 t1 t2, a, b, c, add32 d t1, e, f, g]

/-- Run the 64 compression rounds. -/
def rounds256 : List Nat → List Nat → List Nat → List Nat
  | [], _, st => st
  | _, [], st => st
  | wi :: ws, ki :: ks, st => rounds256 ws ks (round256 wi ki st)

/-- Process `m` 64-byte blocks of `bytes`, chaining the hash state. -/
def sha256Aux : Nat → List Nat → List Nat → List Nat
  | 0, hs, _ => hs
  | m + 1, hs, bytes =>
    let w := extendW 48 (toWords (bytes.take 64)).reverse
    let st := rounds256 w k256 hs
    sha256Aux m (List.zipWith add32 hs st) (bytes.drop 64)

/-- Big-endian bytes of `n`, `m` bytes wide. -/
def beBytes : Nat → Nat → List Nat
  | 0, _ => []
  | m + 1, n => beBytes m (n / 256) ++ [n % 256]

/-- SHA-256 padding: 0x80, zeros, then the 64-bit big-endian bit length. -/
def padMsg (msg : List Nat) : List Nat :=
  msg ++ 0x80 :: List.replicate ((119 - msg.length % 64) % 64) 0 ++ beBytes 8 (8 * msg.length)

/-- The eight 32-bit words of the SHA-256 digest of a byte list. -/
def sha256Words (msg : List Nat) : List Nat :=
  let p := padMsg msg
  sha256Aux (p.length / 64) h256 p

/-- Lower-case hex digit. -/
def hexDigit (n : Nat) : Char := if n < 10 then Char.ofNat (48 + n) else Char.ofNat (87 + n)

/-- Lower-case hex rendering of `n`, `m` digits, most significant first. -/
def hexNat : Nat → Nat → List Char
  | 0, _ => []
  | m + 1, n => hexNat m (n / 16) ++ [hexDigit (n % 16)]

/-- Embedding of `sha256_hex`: the lower-case hex digest of a byte list. -/
def sha256_hex (msg : List Nat) : String :=
  String.mk ((sha256Words msg).map (hexNat 8)).flatten

/-- Bytes of an ASCII string; on the ASCII strings hashed by `prereg`
this coincides with Python's `str.encode("utf-8")`. -/
def strBytes (s : String) : List Nat := s.data.map Char.toNat

/-! ### The preregistration record (embedding of `prereg`)

`prereg(seed)` builds the object
`{"seed": seed, "params": pr.__dict__, "conditions": [...], "metric": "sharpe", "notes": ...}`
and canonicalizes it with `json.dumps(obj, sort_keys=True, separators=(",",":"))`.
The sorted key order is conditions, metric, notes, params (with its keys
sorted), seed; Python renders the default parameter floats as
`0.5`, `0.3`, `1.0`, `1.0`, `252`, `0.25`, `2.0`.  `preregCanon` is that
canonical serialization, with the seed spliced in at the end. -/

/-- The canonical JSON text `canon(obj)` that `prereg` hashes; note the
`"seed"` key is part of the hashed object. -/
def preregCanon (seed : Nat) : String :=
  "\x7b\"conditions\":[\"baseline\",\"ablation\",\"negative_control\"],\"metric\":\"sharpe\",\"notes\":\"Tiny deterministic backtest harness. Stdlib only.\",\"params\":\x7b\"baseline_sharpe_min\":0.5,\"delta_min\":0.3,\"entry_z\":1.0,\"fee_bps\":1.0,\"n_days\":252,\"neg_sharpe_max\":0.25,\"slippage_bps\":2.0\x7d,\"seed\":"
    ++ toString seed ++ "\x7d"

/-- The identifier `AEQ = sha256_hex(canon(obj).encode("utf-8"))[:12]` computed by `prereg`. -/
def preregAEQ (seed : Nat) : String := (sha256_hex (strBytes (preregCanon seed))).take 12

/-- The identifier CID, the truncated hash of the string "AEQ:seed", computed by `prereg`. -/
def preregCID (seed : Nat) : String :=
  (sha256_hex (strBytes (preregAEQ seed ++ ":" ++ toString seed))).take 12

/-! ### Numeric model

Python floats are modelled as real numbers; `random.Random(seed).gauss`
draws are modelled as an abstract stream `ℕ → ℝ` indexed by draw number,
one stream per constructed `Random` instance. -/

open Classical

noncomputable section

/-- The frozen-dataclass `Prereg` with its default field values. -/
structure Prereg where
  n_days : ℕ := 252
  fee_bps : ℝ := 1.0
  slippage_bps : ℝ := 2.0
  entry_z : ℝ := 1.0
  baseline_sharpe_min : ℝ := 0.50
  delta_min : ℝ := 0.30
  neg_sharpe_max : ℝ := 0.25

/-- The loop of `gen_prices`: `k` is the index of the next gauss draw,
the fuel counts remaining iterations, `p` is the running price. -/
def genPricesAux (g : ℕ → ℝ) : ℕ → ℕ → ℝ → List ℝ
  | _, 0, _ => []
  | k, m + 1, p =>
    let p2 := p * (1 + g k)
    p2 :: genPricesAux g (k + 1) m p2

/-- Embedding of `gen_prices(rng, n)`: the price path starting at 100.0
with `n - 1` multiplicative gauss steps. -/
def gen_prices (g : ℕ → ℝ) (n : ℕ) : List ℝ :=
  100 :: genPricesAux g 0 (n - 1) 100

/-- Embedding of `returns(prices)`: simple percentage change between
consecutive prices. -/
def returns (prices : List ℝ) : List ℝ :=
  List.zipWith (fun prev cur => cur / prev - 1) prices (prices.drop 1)

/-- The mean `sum(xs)/len(xs)` used by both `sharpe` and the rolling window. -/
def listMean (xs : List ℝ) : ℝ := xs.sum / (xs.length : ℝ)

/-- The sample variance `sum((x-mu)**2 for x in xs) / max(1, len(xs)-1)`
used by `sharpe` (and by the rolling window when the window has > 1 point). -/
def listSampleVar (xs : List ℝ) : ℝ :=
  ((xs.map fun x => (x - listMean xs) ^ 2).sum) / ((max 1 (xs.length - 1) : ℕ) : ℝ)

/-- Embedding of `sharpe(rets)`: 0.0 on an empty series or zero standard
deviation, otherwise `(mu/sd) * 252**0.5`. -/
def sharpe (rets : List ℝ) : ℝ :=
  if rets = [] then 0
  else
    let sd := Real.sqrt (listSampleVar rets)
    if sd = 0 then 0 else listMean rets / sd * Real.sqrt 252

/-! ### The condition simulator (embedding of `backtest`) -/

/-- The slice `rets[max(0, i-20) : i+1]` (`win = 20` in the source); Nat
subtraction supplies the `max(0, ·)` clamp. -/
def windowAt (rets : List ℝ) (i : ℕ) : List ℝ :=
  (rets.drop (i - 20)).take (i + 1 - (i - 20))

/-- The rolling variance: sample variance when the window has more than
one point, else 0.0. -/
def winVar (w : List ℝ) : ℝ := if 1 < w.length then listSampleVar w else 0

/-- The epsilon-floored rolling standard deviation
`var**0.5 if var > 0 else 1e-9`. -/
def winSd (w : List ℝ) : ℝ := if 0 < winVar w then Real.sqrt (winVar w) else 1e-9

/-- The signal `z = (r - mu) / sd` for day `i`. -/
def zscoreAt (rets : List ℝ) (i : ℕ) : ℝ :=
  (rets.getD i 0 - listMean (windowAt rets i)) / winSd (windowAt rets i)

/-- The mode-dependent position update of `backtest`; position values are
-1, 0, +1.  Modes outside the three known tags leave the position as is. -/
def newPos (pr : Prereg) (mode : String) (z : ℝ) (pos : ℤ) : ℤ :=
  if mode = "baseline" then
    if z > pr.entry_z then 1 else if z < -pr.entry_z then -1 else 0
  else if mode = "ablation" then 1
  else if mode = "negative_control" then 0
  else pos

/-- One simulated day: the position after the update, the trading cost
charged that day, and the day's P&L `pos * r - cost`. -/
structure DayRec where
  pos : ℤ
  cost : ℝ
  pnl : ℝ

/-- The daily loop of `backtest`: `i` is the current day, the fuel counts
remaining days, `pos` is the carried position. -/
def btTrajAux (pr : Prereg) (mode : String) (rets : List ℝ) : ℕ → ℕ → ℤ → List DayRec
  | _, 0, _ => []
  | i, m + 1, pos =>
    let np := newPos pr mode (zscoreAt rets i) pos
    let cost := if np ≠ pos then (pr.fee_bps + pr.slippage_bps) * 1e-4 else 0
    ⟨np, cost, (np : ℝ) * rets.getD i 0 - cost⟩ :: btTrajAux pr mode rets (i + 1) m np

/-- The full day-by-day trajectory of `backtest` over a return series. -/
def btTraj (pr : Prereg) (mode : String) (rets : List ℝ) : List DayRec :=
  btTrajAux pr mode rets 0 rets.length 0

/-- The P&L series appended by the loop. -/
def pnlOf (pr : Prereg) (mode : String) (rets : List ℝ) : List ℝ :=
  (btTraj pr mode rets).map DayRec.pnl

/-- The equity compounding loop `eq = 1.0; for x in pnl: eq *= (1.0 + x)`. -/
def finalEquity (pnl : List ℝ) : ℝ := pnl.foldl (fun eq x => eq * (1 + x)) 1

/-- The approximate trade count
`sum(1 for i in range(1, len(pnl)) if pnl[i] != pnl[i-1])`, a count of
consecutive P&L changes. -/
def nTradesApprox (pnl : List ℝ) : ℕ :=
  (List.zipWith (fun a b => if b ≠ a then 1 else 0) pnl (pnl.drop 1)).sum

/-- The result dict of `backtest`. -/
structure BTResult where
  final_equity : ℝ
  sharpe : ℝ
  n_trades_approx : ℕ

/-- Embedding of `backtest` after the price path has been turned into
returns. -/
def backtestOnRets (pr : Prereg) (rets : List ℝ) (mode : String) : BTResult :=
  ⟨finalEquity (pnlOf pr mode rets), sharpe (pnlOf pr mode rets),
    nTradesApprox (pnlOf pr mode rets)⟩

/-- Embedding of `backtest(pr, rng, mode)`: generates this call's own
price path from its own RNG stream, derives returns, and simulates the
condition. -/
def backtest (pr : Prereg) (g : ℕ → ℝ) (mode : String) : BTResult :=
  backtestOnRets pr (returns (gen_prices g pr.n_days)) mode

/-! ### Gate evaluator -/

/-- One entry of the `gates` dict: observed value, threshold, pass flag. -/
structure GateRecord where
  value : ℝ
  threshold : ℝ
  pass : Prop

/-- The three gates of `run_once`, in source order, keyed as in the
`gates` dict. -/
def gatesOf (pr : Prereg) (base_s ablt_s neg_s : ℝ) : List (String × GateRecord) :=
  [("baseline_sharpe_min", ⟨base_s, pr.baseline_sharpe_min, base_s ≥ pr.baseline_sharpe_min⟩),
   ("delta_min", ⟨base_s - ablt_s, pr.delta_min, base_s - ablt_s ≥ pr.delta_min⟩),
   ("neg_sharpe_max", ⟨neg_s, pr.neg_sharpe_max, neg_s ≤ pr.neg_sharpe_max⟩)]

/-- The verdict `overall = all(v["pass"] for v in gates.values())`. -/
def overallPass (gs : List (String × GateRecord)) : Prop := ∀ g ∈ gs, g.2.pass

/-! ### Orchestrator (embedding of `run_once`)

The side effects of `run_once` are embedded as an explicit event trace
listing, in program order, every write, ledger append, simulator
invocation and print the function performs. -/

/-- The observable effects of `run_once`. -/
inductive Event where
  | preregWrite
  | ledgerPrereg
  | blindMapWrite
  | ledgerBlindMap
  | simRun (mode : String)
  | resultsWrite
  | ledgerResults
  | manifestWrite
  | printBlindMap
  | printResults
deriving DecidableEq

/-- The effect trace of `run_once`, in program order: prereg.json write
and its ledger append, then (when blinding) blind_map.json and its ledger
append, then the three condition simulations, then results.json, its
ledger append, the manifest, the optional reveal print, and the results
print. -/
def runOnceTrace (blind reveal : Bool) : List Event :=
  [.preregWrite, .ledgerPrereg]
    ++ (if blind then [.blindMapWrite, .ledgerBlindMap] else [])
    ++ [.simRun ("baseline"), .simRun ("ablation"), .simRun ("negative_control"),
        .resultsWrite, .ledgerResults, .manifestWrite]
    ++ (if reveal && blind then [.printBlindMap] else [])
    ++ [.printResults]

/-- Index of the first occurrence of an event in a trace (length if absent). -/
def eidx (e : Event) : List Event → ℕ
  | [] => 0
  | x :: xs => if x = e then 0 else eidx e xs + 1

/-- The ambient randomness of a run: `gauss s k` is the `k`-th
`rng.gauss(0.0004, 0.01)` draw of `random.Random(s)`, and `shuffle s` is
the permutation `random.Random(s).shuffle` applies to a list.  The model
quantifies over this environment, so theorems hold for every seed and
every behaviour of the stdlib generator. -/
structure RunEnv where
  gauss : ℕ → ℕ → ℝ
  shuffle : ℕ → List String → List String

/-- The declared condition list of the preregistration. -/
def conditions : List String := ["baseline", "ablation", "negative_control"]

/-- The blind label assignment: each condition maps to the opaque label
C(idx+1), in shuffled order. -/
def labelsOf (conds : List String) : List (String × String) :=
  conds.enum.map fun p => (p.2, "C" ++ toString (p.1 + 1))

/-- Everything `run_once` computes: identifiers, the three condition
results, delta, gates, the verdict, the returned status, the label map
and the effect trace. -/
structure RunResult where
  aeq : String
  cid : String
  base : BTResult
  ablt : BTResult
  neg : BTResult
  delta : ℝ
  gates : List (String × GateRecord)
  overall : Prop
  exitStatus : ℕ
  labels : List (String × String)
  trace : List Event

/-- Embedding of `run_once(out_dir, seed, blind, reveal)`: builds the
prereg record, optionally the blind map (shuffling with `Random(seed)`),
runs the three backtests on `Random(seed+1)`, `Random(seed+2)`,
`Random(seed+3)`, evaluates the gates and returns `0 if overall else 2`. -/
def runOnce (env : RunEnv) (seed : ℕ) (blind reveal : Bool) : RunResult :=
  let pr : Prereg := {}
  let labels :=
    if blind then labelsOf (env.shuffle seed conditions)
    else conditions.map fun c => (c, c)
  let base := backtest pr (env.gauss (seed + 1)) "baseline"
  let ablt := backtest pr (env.gauss (seed + 2)) "ablation"
  let neg := backtest pr (env.gauss (seed + 3)) "negative_control"
  let gs := gatesOf pr base.sharpe ablt.sharpe neg.sharpe
  { aeq := preregAEQ seed
    cid := preregCID seed
    base := base
    ablt := ablt
    neg := neg
    delta := base.sharpe - ablt.sharpe
    gates := gs
    overall := overallPass gs
    exitStatus := if overallPass gs then 0 else 2
    labels := labels
    trace := runOnceTrace blind reveal }

/-- A concrete run environment used to evaluate the model at specific
inputs: the first gauss draw of `Random(s)` is `s / 100`, and shuffling
is the identity permutation. -/
def envEx : RunEnv := ⟨fun s _ => (s : ℝ) / 100, fun _ l => l⟩

end

/-! ### Helper lemmas -/

/-- In `negative_control` mode the position update always returns flat. -/
theorem newPos_negative_control (pr : Prereg) (z : ℝ) (pos : ℤ) :
    newPos pr ("negative_control") z pos = 0 := by
  simp [newPos]

/-- For a mode outside the three known tags, no branch fires and the
position is left unchanged. -/
theorem newPos_unknown (pr : Prereg) (mode : String) (z : ℝ) (pos : ℤ)
    (h1 : mode ≠ "baseline") (h2 : mode ≠ "ablation") (h3 : mode ≠ "negative_control") :
    newPos pr mode z pos = pos := by
  simp [newPos, h1, h2, h3]

/-- If the mode's position update keeps a flat position flat, the whole
trajectory started flat is flat with zero cost and zero P&L. -/
theorem btTrajAux_flat (pr : Prereg) (mode : String) (rets : List ℝ)
    (hm : ∀ z : ℝ, ∀ p : ℤ, p = 0 → newPos pr mode z p = 0) :
    ∀ (m i : ℕ), btTrajAux pr mode rets i m 0 = List.replicate m ⟨0, 0, 0⟩ := by
  intro m
  induction m with
  | zero => intro i; rfl
  | succ m ih =>
    intro i
    rw [List.replicate_succ]
    simp only [btTrajAux]
    rw [hm _ _ rfl]
    simp [ih]

/-- Compounding an all-zero P&L series leaves the equity at 1. -/
theorem finalEquity_replicate_zero : ∀ m : ℕ, finalEquity (List.replicate m 0) = 1 := by
  have key : ∀ (m : ℕ) (a : ℝ),
      (List.replicate m (0 : ℝ)).foldl (fun eq x => eq * (1 + x)) a = a := by
    intro m
    induction m with
    | zero => intro a; rfl
    | succ m ih => intro a; rw [List.replicate_succ]; simp [List.foldl_cons, ih]
  intro m
  simpa [finalEquity] using key m 1

/-- An all-zero P&L series has zero standard deviation, so `sharpe` is 0. -/
theorem sharpe_replicate_zero : ∀ m : ℕ, sharpe (List.replicate m 0) = 0 := by
  intro m
  cases m with
  | zero => simp [sharpe]
  | succ m =>
    have hne : (List.replicate (m + 1) (0 : ℝ)) ≠ [] := by simp
    have hmean : listMean (List.replicate (m + 1) (0 : ℝ)) = 0 := by
      simp [listMean]
    have hvar : listSampleVar (List.replicate (m + 1) (0 : ℝ)) = 0 := by
      simp [listSampleVar, hmean]
    simp [sharpe, hne, hvar]

/-- A constant (all-zero) P&L series has no consecutive changes. -/
theorem nTradesApprox_replicate_zero : ∀ m : ℕ, nTradesApprox (List.replicate m (0 : ℝ)) = 0 := by
  have key : ∀ m : ℕ,
      (List.zipWith (fun a b => if b ≠ a then 1 else 0)
        ((0 : ℝ) :: List.replicate m (0 : ℝ)) (List.replicate m (0 : ℝ))).sum = 0 := by
    intro m
    induction m with
    | zero => rfl
    | succ m ih =>
      rw [List.replicate_succ]
      simp only [List.zipWith_cons_cons, List.sum_cons]
      simpa using ih
  intro m
  cases m with
  | zero => rfl
  | succ m =>
    have := key m
    simpa [nTradesApprox, List.replicate_succ] using this

/-- Any mode whose position update keeps flat positions flat produces the
all-zero trajectory and the inert result `(1.0, 0.0, 0)`. -/
theorem flat_mode_results (pr : Prereg) (mode : String) (rets : List ℝ)
    (hm : ∀ z : ℝ, ∀ p : ℤ, p = 0 → newPos pr mode z p = 0) :
    btTraj pr mode rets = List.replicate rets.length ⟨0, 0, 0⟩
    ∧ pnlOf pr mode rets = List.replicate rets.length 0
    ∧ backtestOnRets pr rets mode = ⟨1, 0, 0⟩ := by
  have htraj : btTraj pr mode rets = List.replicate rets.length ⟨0, 0, 0⟩ :=
    btTrajAux_flat pr mode rets hm rets.length 0
  have hpnl : pnlOf pr mode rets = List.replicate rets.length 0 := by
    simp [pnlOf, htraj]
  refine ⟨htraj, hpnl, ?_⟩
  simp [backtestOnRets, hpnl, finalEquity_replicate_zero, sharpe_replicate_zero,
    nTradesApprox_replicate_zero]

/-- The loop of `gen_prices` emits exactly one price per unit of fuel. -/
theorem genPricesAux_length (g : ℕ → ℝ) : ∀ (m k : ℕ) (p : ℝ), (genPricesAux g k m p).length = m := by
  intro m
  induction m with
  | zero => intro k p; rfl
  | succ m ih => intro k p; simp [genPricesAux, ih]

/-- The second price of a default-length path is `100 * (1 + g 0)`. -/
theorem gen_prices_getD_one (g : ℕ → ℝ) :
    (gen_prices g 252).getD 1 0 = 100 * (1 + g 0) := rfl

/-! ### Claim theorems -/

set_option maxRecDepth 400000 in
/-- C1: the spec claims AEQ is independent of the run seed for fixed
Prereg parameters.  The code hashes the canonical prereg object with its
"seed" field included, so the AEQ identifiers of seeds 1 and 2 differ;
both digests are evaluated concretely in the kernel. -/
theorem aeq_varies_with_seed :
    preregAEQ 1 ≠ preregAEQ 2
    ∧ preregAEQ 1 = "973cdbbf1147"
    ∧ preregAEQ 2 = "053c9b603f9d" := by
  decide

/-- C2: commitment before evidence: in every execution of `run_once` the
prereg.json write and its ledger append come, in program order, strictly
before each condition simulation, before the results.json write, and
before the results_written ledger append. -/
theorem commitment_before_evidence : ∀ (env : RunEnv) (seed : ℕ) (blind reveal : Bool),
    (runOnce env seed blind reveal).trace = runOnceTrace blind reveal
    ∧ (Event.preregWrite ∈ runOnceTrace blind reveal
       ∧ Event.ledgerPrereg ∈ runOnceTrace blind reveal
       ∧ Event.resultsWrite ∈ runOnceTrace blind reveal
       ∧ Event.ledgerResults ∈ runOnceTrace blind reveal)
    ∧ eidx Event.preregWrite (runOnceTrace blind reveal)
        < eidx (Event.simRun ("baseline")) (runOnceTrace blind reveal)
    ∧ eidx Event.preregWrite (runOnceTrace blind reveal)
        < eidx (Event.simRun ("ablation")) (runOnceTrace blind reveal)
    ∧ eidx Event.preregWrite (runOnceTrace blind reveal)
        < eidx (Event.simRun ("negative_control")) (runOnceTrace blind reveal)
    ∧ eidx Event.ledgerPrereg (runOnceTrace blind reveal)
        < eidx (Event.simRun ("baseline")) (runOnceTrace blind reveal)
    ∧ eidx Event.preregWrite (runOnceTrace blind reveal)
        < eidx Event.resultsWrite (runOnceTrace blind reveal)
    ∧ eidx Event.ledgerPrereg (runOnceTrace blind reveal)
        < eidx Event.resultsWrite (runOnceTrace blind reveal)
    ∧ eidx Event.ledgerPrereg (runOnceTrace blind reveal)
        < eidx Event.ledgerResults (runOnceTrace blind reveal) := by
  intro env seed blind reveal
  refine ⟨rfl, ?_⟩
  cases blind <;> cases reveal <;> exact (by decide)

/-- C3: the negative control is inert: in `negative_control` mode the
position is 0 on every day, no trading cost is ever charged, every daily
P&L entry is 0, and the result is exactly final_equity 1.0, sharpe 0.0
and approximate trade count 0, for every parameter set, every return
series, and every RNG stream (hence every seed). -/
theorem negative_control_inert : ∀ (pr : Prereg) (rets : List ℝ),
    (∀ d ∈ btTraj pr ("negative_control") rets, d.pos = 0 ∧ d.cost = 0 ∧ d.pnl = 0)
    ∧ backtestOnRets pr rets ("negative_control") = ⟨1, 0, 0⟩
    ∧ (∀ g : ℕ → ℝ, backtest pr g ("negative_control") = ⟨1, 0, 0⟩) := by
  intro pr rets
  have hm : ∀ z : ℝ, ∀ p : ℤ, p = 0 → newPos pr ("negative_control") z p = 0 :=
    fun z p _ => newPos_negative_control pr z p
  obtain ⟨htraj, hpnl, hres⟩ := flat_mode_results pr ("negative_control") rets hm
  refine ⟨?_, hres, ?_⟩
  · intro d hd
    rw [htraj] at hd
    have hde := List.eq_of_mem_replicate hd
    subst hde
    exact ⟨rfl, rfl, rfl⟩
  · intro g
    have := (flat_mode_results pr ("negative_control")
      (returns (gen_prices g pr.n_days)) hm).2.2
    simpa [backtest] using this

/-- C4: gate logic: `run_once` evaluates exactly the three gates
baseline sharpe >= 0.50, (baseline - ablation) sharpe >= 0.30 and
negative-control sharpe <= 0.25, each recorded with its observed value,
threshold and pass flag, and `overall_pass` holds iff all three pass. -/
theorem gate_logic : ∀ b a n : ℝ,
    gatesOf {} b a n =
      [("baseline_sharpe_min", ⟨b, 0.50, b ≥ 0.50⟩),
       ("delta_min", ⟨b - a, 0.30, b - a ≥ 0.30⟩),
       ("neg_sharpe_max", ⟨n, 0.25, n ≤ 0.25⟩)]
    ∧ (gatesOf {} b a n).length = 3
    ∧ (overallPass (gatesOf {} b a n) ↔ (b ≥ 0.50 ∧ b - a ≥ 0.30 ∧ n ≤ 0.25)) := by
  intro b a n
  refine ⟨rfl, rfl, ?_⟩
  simp [overallPass, gatesOf]

/-- C5: exit status contract: `run_once` returns 0 when `overall_pass`
holds and 2 otherwise, and no other status is possible on a completed
run. -/
theorem exit_status_contract : ∀ (env : RunEnv) (seed : ℕ) (blind reveal : Bool),
    ((runOnce env seed blind reveal).exitStatus = 0 ∨ (runOnce env seed blind reveal).exitStatus = 2)
    ∧ ((runOnce env seed blind reveal).exitStatus = 0 ↔ (runOnce env seed blind reveal).overall)
    ∧ ((runOnce env seed blind reveal).exitStatus = 2 ↔ ¬ (runOnce env seed blind reveal).overall) := by
  intro env seed blind reveal
  have hrfl : (runOnce env seed blind reveal).exitStatus
      = if (runOnce env seed blind reveal).overall then 0 else 2 := rfl
  by_cases h : (runOnce env seed blind reveal).overall <;> simp [hrfl, h]

/-- C6 counterexample: the three condition simulations do not consume one
shared price series: with the concrete environment `envEx` and seed 0,
the price series generated inside the baseline backtest (from
`Random(seed+1)`) differs from the one generated inside the ablation
backtest (from `Random(seed+2)`). -/
theorem price_series_not_shared :
    gen_prices (envEx.gauss (0 + 1)) (Prereg.n_days {})
      ≠ gen_prices (envEx.gauss (0 + 2)) (Prereg.n_days {}) := by
  intro h
  have h1 := congrArg (fun l => l.getD 1 0) h
  simp only at h1
  rw [gen_prices_getD_one, gen_prices_getD_one] at h1
  simp only [envEx] at h1
  norm_num at h1

/-- C6 amended: each of the three condition simulations generates its own
price series from its own sub-seeded stream (`Random(seed+1)`,
`Random(seed+2)`, `Random(seed+3)`); every generated series has index 0
fixed at 100.0 and length `n_days`. -/
theorem per_condition_price_series : ∀ (env : RunEnv) (seed : ℕ) (blind reveal : Bool),
    (runOnce env seed blind reveal).base
        = backtestOnRets {} (returns (gen_prices (env.gauss (seed + 1)) 252)) ("baseline")
    ∧ (runOnce env seed blind reveal).ablt
        = backtestOnRets {} (returns (gen_prices (env.gauss (seed + 2)) 252)) ("ablation")
    ∧ (runOnce env seed blind reveal).neg
        = backtestOnRets {} (returns (gen_prices (env.gauss (seed + 3)) 252)) ("negative_control")
    ∧ (∀ (g : ℕ → ℝ) (n : ℕ), 1 ≤ n →
        (gen_prices g n).length = n ∧ (gen_prices g n).getD 0 0 = 100) := by
  intro env seed blind reveal
  refine ⟨rfl, rfl, rfl, ?_⟩
  intro g n h
  constructor
  · simp [gen_prices, genPricesAux_length]
    omega
  · rfl

/-- C6 amended, witness at a concrete stream and the default day count. -/
theorem per_condition_price_series_witness :
    (1 ≤ 252)
    ∧ (gen_prices (fun _ => (0 : ℝ)) 252).length = 252
    ∧ (gen_prices (fun _ => (0 : ℝ)) 252).getD 0 0 = 100 := by
  have h := (per_condition_price_series envEx 0 false false).2.2.2
    (fun _ => (0 : ℝ)) 252 (by decide)
  exact ⟨by decide, h.1, h.2⟩

/-- C7 counterexample: the rolling window is not of width 20: at day 20
of a 25-day return series the slice `rets[max(0, i-20):i+1]` holds 21
returns, not `min(i+1, 20)`. -/
theorem window_width_twenty_refuted :
    ¬ (∀ (rets : List ℝ) (i : ℕ), i < rets.length →
        (windowAt rets i).length = min (i + 1) 20) := by
  intro h
  have := h (List.replicate 25 0) 20 (by simp)
  simp [windowAt] at this

/-- C7 amended: for every day `i` of the simulation the z-score window
`rets[max(0, i-20):i+1]` contains exactly `min(i+1, 21)` returns: today's
return plus up to 20 prior days. -/
theorem window_width_min21 (rets : List ℝ) (i : ℕ) (h : i < rets.length) :
    (windowAt rets i).length = min (i + 1) 21 := by
  simp [windowAt]
  omega

/-- C7 amended, witness at the concrete series of 25 zeros and day 20. -/
theorem window_width_min21_witness :
    20 < (List.replicate 25 (0 : ℝ)).length
    ∧ (windowAt (List.replicate 25 (0 : ℝ)) 20).length = min (20 + 1) 21 :=
  ⟨by simp, window_width_min21 (List.replicate 25 0) 20 (by simp)⟩

/-- C8: blinding noninterference: for a fixed environment and seed, runs
with and without the blind flag produce identical condition results,
delta, gates, verdict and exit status; the flag affects only labels and
the extra blind-map events of the trace. -/
theorem blinding_noninterference : ∀ (env : RunEnv) (seed : ℕ) (reveal : Bool),
    (runOnce env seed true reveal).base = (runOnce env seed false reveal).base
    ∧ (runOnce env seed true reveal).ablt = (runOnce env seed false reveal).ablt
    ∧ (runOnce env seed true reveal).neg = (runOnce env seed false reveal).neg
    ∧ (runOnce env seed true reveal).delta = (runOnce env seed false reveal).delta
    ∧ (runOnce env seed true reveal).gates = (runOnce env seed false reveal).gates
    ∧ ((runOnce env seed true reveal).overall ↔ (runOnce env seed false reveal).overall)
    ∧ (runOnce env seed true reveal).exitStatus = (runOnce env seed false reveal).exitStatus := by
  intro env seed reveal
  exact ⟨rfl, rfl, rfl, rfl, rfl, Iff.rfl, rfl⟩

/-- C9: the `sharpe` contract: 0.0 on the empty series, 0.0 when the
standard deviation is zero, otherwise `(mean/stddev) * sqrt(252)`; the
mean is `sum/len`, the variance divides by `n-1` (by 1 when `n = 1`), and
the division is always guarded by a nonzero standard deviation. -/
theorem sharpe_contract :
    sharpe [] = 0
    ∧ (∀ rets : List ℝ, rets ≠ [] → Real.sqrt (listSampleVar rets) = 0 → sharpe rets = 0)
    ∧ (∀ rets : List ℝ, rets ≠ [] → Real.sqrt (listSampleVar rets) ≠ 0 →
        sharpe rets = listMean rets / Real.sqrt (listSampleVar rets) * Real.sqrt 252)
    ∧ (∀ rets : List ℝ, listMean rets = rets.sum / (rets.length : ℝ))
    ∧ (∀ rets : List ℝ, rets ≠ [] →
        listSampleVar rets = ((rets.map fun x => (x - listMean rets) ^ 2).sum)
          / (((if rets.length = 1 then 1 else rets.length - 1) : ℕ) : ℝ))
    ∧ (∀ rets : List ℝ, sharpe rets = 0 ∨ Real.sqrt (listSampleVar rets) ≠ 0) := by
  refine ⟨by simp [sharpe], ?_, ?_, fun _ => rfl, ?_, ?_⟩
  · intro rets hne hsd
    simp [sharpe, hne, hsd]
  · intro rets hne hsd
    simp [sharpe, hne, hsd]
  · intro rets hne
    have hmax : (max 1 (rets.length - 1)) = (if rets.length = 1 then 1 else rets.length - 1) := by
      cases rets with
      | nil => simp at hne
      | cons a l =>
        simp only [List.length_cons]
        split <;> omega
    rw [listSampleVar, hmax]
  · intro rets
    by_cases hne : rets = []
    · left; simp [sharpe, hne]
    · by_cases hsd : Real.sqrt (listSampleVar rets) = 0
      · left; simp [sharpe, hne, hsd]
      · right; exact hsd

/-- C9 witness: on the concrete series `[1, 0]` the guards are live and
`sharpe` takes the annualized-ratio branch. -/
theorem sharpe_contract_witness :
    (([(1 : ℝ), 0] : List ℝ) ≠ [] ∧ Real.sqrt (listSampleVar [(1 : ℝ), 0]) ≠ 0)
    ∧ sharpe [(1 : ℝ), 0]
        = listMean [(1 : ℝ), 0] / Real.sqrt (listSampleVar [(1 : ℝ), 0]) * Real.sqrt 252 := by
  have h1 : (([(1 : ℝ), 0] : List ℝ)) ≠ [] := by simp
  have hv : listSampleVar [(1 : ℝ), 0] = 1 / 2 := by
    simp [listSampleVar, listMean]
    norm_num
  have h2 : Real.sqrt (listSampleVar [(1 : ℝ), 0]) ≠ 0 := by
    rw [hv]
    exact Real.sqrt_ne_zero'.mpr (by norm_num)
  exact ⟨⟨h1, h2⟩, sharpe_contract.2.2.1 _ h1 h2⟩

/-- C10: unknown condition modes are silently inert: for any mode tag
outside the three known ones, no branch of the position update fires, the
position stays 0 every day, every daily P&L entry is 0, and the result
equals the negative control's: final_equity 1.0, sharpe 0.0, trade count
0. -/
theorem unknown_mode_inert : ∀ (mode : String),
    mode ≠ "baseline" → mode ≠ "ablation" → mode ≠ "negative_control" →
    ∀ (pr : Prereg) (rets : List ℝ),
    (∀ d ∈ btTraj pr mode rets, d.pos = 0 ∧ d.cost = 0 ∧ d.pnl = 0)
    ∧ backtestOnRets pr rets mode = ⟨1, 0, 0⟩
    ∧ backtestOnRets pr rets mode = backtestOnRets pr rets ("negative_control") := by
  intro mode h1 h2 h3 pr rets
  have hm : ∀ z : ℝ, ∀ p : ℤ, p = 0 → newPos pr mode z p = 0 := by
    intro z p hp
    rw [newPos_unknown pr mode z p h1 h2 h3, hp]
  have hmn : ∀ z : ℝ, ∀ p : ℤ, p = 0 → newPos pr ("negative_control") z p = 0 :=
    fun z p _ => newPos_negative_control pr z p
  obtain ⟨htraj, hpnl, hres⟩ := flat_mode_results pr mode rets hm
  obtain ⟨_, _, hres2⟩ := flat_mode_results pr ("negative_control") rets hmn
  refine ⟨?_, hres, ?_⟩
  · intro d hd
    rw [htraj] at hd
    have hde := List.eq_of_mem_replicate hd
    subst hde
    exact ⟨rfl, rfl, rfl⟩
  · rw [hres, hres2]

/-- C10 witness: the concrete unknown mode tag "mystery" on the series
`[1, 0]` gives the inert result and matches the negative control. -/
theorem unknown_mode_inert_witness :
    ("mystery" ≠ "baseline" ∧ "mystery" ≠ "ablation" ∧ "mystery" ≠ "negative_control")
    ∧ backtestOnRets {} [(1 : ℝ), 0] ("mystery") = ⟨1, 0, 0⟩
    ∧ backtestOnRets {} [(1 : ℝ), 0] ("mystery")
        = backtestOnRets {} [(1 : ℝ), 0] ("negative_control") := by
  refine ⟨⟨by decide, by decide, by decide⟩, ?_, ?_⟩
  · exact (unknown_mode_inert ("mystery") (by decide) (by decide) (by decide) {} [1, 0]).2.1
  · exact (unknown_mode_inert ("mystery") (by decide) (by decide) (by decide) {} [1, 0]).2.2

end Harness
